import Mathlib

/-!
# Route resolution of the acorn HTTP server

A shallow embedding of `server/router.hpp`, `server/server.hpp`,
`dashboard/include/dashboard.hpp` and `dashboard/include/components/logger.hpp`,
followed by theorems about route registration, route matching, the dashboard
components and the connection pool.

Conventions of the embedding

* A member function that reads or writes `*this` takes the object and returns
  the object it leaves behind next to its result.
* A function that can throw returns `Except`; the object left behind is
  returned in both cases, because a throw does not undo earlier writes.
* `std::unordered_map<K, V>` is a function `K → Option V`: `none` means that
  the key is absent.
* `std::vector<T>` is `List T`, `std::string` is `String`.
* `std::regex` is a library the router is compiled against; it is a parameter
  of the embedding (`Regex_lib`), and `ecma` is an executable instance for a
  fragment of the ECMAScript grammar, used where a concrete pattern is needed.
-/

namespace http

/-- Modelled from the spec: the enumeration `http::Method` is declared in a header that
is not part of the sources at hand; the specification lists it as the closed enumeration
GET, HEAD, POST, PUT, DELETE, OPTIONS, TRACE, CONNECT, PATCH. -/
inductive Method where
  | GET | HEAD | POST | PUT | DELETE | OPTIONS | TRACE | CONNECT | PATCH
  deriving DecidableEq, Repr

namespace method

/-- Modelled from the spec: `http::method::str` is declared in a header that is not part
of the sources at hand; the string form of a method is its name as the specification
writes it (`GET /logger`, `POST /status`). -/
def str : Method → String
  | .GET => "GET"
  | .HEAD => "HEAD"
  | .POST => "POST"
  | .PUT => "PUT"
  | .DELETE => "DELETE"
  | .OPTIONS => "OPTIONS"
  | .TRACE => "TRACE"
  | .CONNECT => "CONNECT"
  | .PATCH => "PATCH"

end method
end http

namespace server

/-- The regular-expression library behind `Route_expr = std::regex`.
`compile ex` is the constructor `std::regex{ex}`, which throws `std::regex_error` on a
malformed expression (`none`); `regex_match path expr` is
`std::regex_match(path.begin(), path.end(), expr)`, true when the whole of `path`
matches `expr`. -/
structure Regex_lib where
  Route_expr : Type
  compile : String → Option Route_expr
  regex_match : String → Route_expr → Bool

/-! ### An executable fragment of the ECMAScript grammar of `std::regex`

The fragment has ordinary characters, the wildcard `.` and the postfix `*` on a single
character or wildcard. Every other use of a pattern character (a group, a class, an
anchor, an escape, another quantifier) is outside of it and `Ecma.parse` returns `none`
for it. -/

namespace Ecma

/-- An atom of the fragment: one ordinary character, or the wildcard. -/
inductive Atom where
  | chr (c : Char)
  | dot
  deriving DecidableEq, Repr

/-- A term of the fragment: an atom, starred or not. -/
structure Term where
  atom : Atom
  starred : Bool
  deriving DecidableEq, Repr

/-- The pattern characters of the ECMAScript grammar. -/
def pattern_chars : List Char :=
  ['^', '$', '\\', '.', '*', '+', '?', '(', ')', '[', ']', '\x7b', '\x7d', '|']

/-- The line terminators, which the wildcard does not match. -/
def line_terminators : List Char :=
  ['\n', '\r', '\u2028', '\u2029']

/-- The atom a single character of the expression stands for, if any. -/
def atom_of (c : Char) : Option Atom :=
  if c = '.' then some Atom.dot
  else if c ∈ pattern_chars then none
  else some (Atom.chr c)

/-- The expression as a sequence of terms; `none` outside the fragment. -/
def parse : List Char → Option (List Term)
  | [] => some []
  | [c] => (atom_of c).map (fun a => [⟨a, false⟩])
  | c :: d :: ds =>
    match atom_of c with
    | none => none
    | some a =>
      if d = '*' then (parse ds).map (fun ts => ⟨a, true⟩ :: ts)
      else (parse (d :: ds)).map (fun ts => ⟨a, false⟩ :: ts)

/-- Whether an atom matches one character. -/
def Atom.accepts : Atom → Char → Bool
  | .chr c, d => c == d
  | .dot, d => !(line_terminators.contains d)

/-- A starred atom followed by the rest `k` of the expression: the rest matches here, or
the atom takes one character and the starred atom is tried again. -/
def star (a : Atom) (k : List Char → Bool) : List Char → Bool
  | [] => k []
  | c :: s => k (c :: s) || (a.accepts c && star a k s)

/-- Whether the whole of the input matches the sequence of terms. -/
def accepts : List Term → List Char → Bool
  | [] => fun s => s.isEmpty
  | ⟨a, false⟩ :: ts => fun s =>
    match s with
    | [] => false
    | c :: s1 => a.accepts c && accepts ts s1
  | ⟨a, true⟩ :: ts => star a (accepts ts)

end Ecma

/-- The fragment as a regular-expression library. `compile` is `none` for every
expression outside the fragment, malformed or not; the theorems below use this instance
only at expressions it compiles. -/
def ecma : Regex_lib where
  Route_expr := List Ecma.Term
  compile := fun ex => Ecma.parse ex.data
  regex_match := fun path expr => Ecma.accepts expr path.data

/-- The exception `std::regex_error`, thrown by the constructor of `Route`. -/
structure Regex_error where
  pattern : String
  deriving DecidableEq, Repr

/-- The class `Router_error : std::runtime_error`; `what` is the message. -/
structure Router_error where
  what : String
  deriving DecidableEq, Repr

/-- The struct `Router::Route`: a compiled expression and a callback. -/
structure Route (E : Regex_lib) (Callback : Type) where
  expr : E.Route_expr
  callback : Callback

/-- The constructor `Route(const char* ex, Callback c) : expr{ex}, callback{c}`. -/
def Route.make (E : Regex_lib) {Callback : Type} (ex : String) (c : Callback) :
    Except Regex_error (Route E Callback) :=
  match E.compile ex with
  | some e => .ok ⟨e, c⟩
  | none => .error ⟨ex⟩

/-- The alias `Route_table = std::unordered_map<http::Method, std::vector<Route>>`. -/
abbrev Route_table (E : Regex_lib) (Callback : Type) :=
  http.Method → Option (List (Route E Callback))

/-- The class `Router`; its only data member is `route_table_`. -/
structure Router (E : Regex_lib) (Callback : Type) where
  route_table_ : Route_table E Callback

namespace Router

variable {E : Regex_lib} {Callback : Type}

/-- The default constructor `Router() = default`: an empty table. -/
def empty : Router E Callback := ⟨fun _ => none⟩

/-- Assignment `route_table_[method] = routes` to an element of the table. -/
def set (r : Router E Callback) (method : http.Method) (routes : List (Route E Callback)) :
    Router E Callback :=
  ⟨fun m => if m = method then some routes else r.route_table_ m⟩

/-- The expression `route_table_[method]`: `operator[]` of `std::unordered_map` inserts a
default-constructed (empty) vector when the key is absent, and yields the element. -/
def index (r : Router E Callback) (method : http.Method) :
    List (Route E Callback) × Router E Callback :=
  match r.route_table_ method with
  | some routes => (routes, r)
  | none => ([], r.set method [])

/-- The statement `route_table_[method].emplace_back(std::forward<Routee>(route), result)`
shared by the nine registration operations: the element is looked up (and inserted when
absent), then a `Route` is constructed at the end of it; when the constructor throws the
vector keeps its content. -/
def emplace_back (r : Router E Callback) (method : http.Method) (route : String)
    (result : Callback) : Except Regex_error Unit × Router E Callback :=
  let (routes, r1) := r.index method
  match Route.make E route result with
  | .ok rt => (.ok (), r1.set method (routes ++ [rt]))
  | .error err => (.error err, r1)

/-- `Router::on_options`. -/
def on_options (route : String) (result : Callback) (r : Router E Callback) :
    Except Regex_error Unit × Router E Callback :=
  r.emplace_back http.Method.OPTIONS route result

/-- `Router::on_get`. -/
def on_get (route : String) (result : Callback) (r : Router E Callback) :
    Except Regex_error Unit × Router E Callback :=
  r.emplace_back http.Method.GET route result

/-- `Router::on_head`. -/
def on_head (route : String) (result : Callback) (r : Router E Callback) :
    Except Regex_error Unit × Router E Callback :=
  r.emplace_back http.Method.HEAD route result

/-- `Router::on_post`. -/
def on_post (route : String) (result : Callback) (r : Router E Callback) :
    Except Regex_error Unit × Router E Callback :=
  r.emplace_back http.Method.POST route result

/-- `Router::on_put`. -/
def on_put (route : String) (result : Callback) (r : Router E Callback) :
    Except Regex_error Unit × Router E Callback :=
  r.emplace_back http.Method.PUT route result

/-- `Router::on_delete`. -/
def on_delete (route : String) (result : Callback) (r : Router E Callback) :
    Except Regex_error Unit × Router E Callback :=
  r.emplace_back http.Method.DELETE route result

/-- `Router::on_trace`. -/
def on_trace (route : String) (result : Callback) (r : Router E Callback) :
    Except Regex_error Unit × Router E Callback :=
  r.emplace_back http.Method.TRACE route result

/-- `Router::on_connect`. -/
def on_connect (route : String) (result : Callback) (r : Router E Callback) :
    Except Regex_error Unit × Router E Callback :=
  r.emplace_back http.Method.CONNECT route result

/-- `Router::on_patch`. -/
def on_patch (route : String) (result : Callback) (r : Router E Callback) :
    Except Regex_error Unit × Router E Callback :=
  r.emplace_back http.Method.PATCH route result

/-- `Router::install_new_configuration`: the table of `new_routes` is assigned to
`route_table_` as a whole. -/
def install_new_configuration (r : Router E Callback) (new_routes : Router E Callback) :
    Router E Callback :=
  { r with route_table_ := new_routes.route_table_ }

/-- The loop `for (auto& route : routes) if (std::regex_match(...)) return route.callback;`
of `Router::match`: `some` of the callback returned, `none` when the loop runs to its
end. -/
def scan (path : String) : List (Route E Callback) → Option Callback
  | [] => none
  | route :: rest =>
    if E.regex_match path route.expr then some route.callback else scan path rest

/-- The message of the first `throw` of `Router::match`. -/
def no_routes_what (method : http.Method) : String :=
  "No routes for method: [" ++ http.method.str method ++ "]"

/-- The message of the last `throw` of `Router::match`. -/
def no_matching_what (method : http.Method) (path : String) : String :=
  "No matching route for " ++ http.method.str method ++ " " ++ path

/-- `Router::match`. The local `routes` is a copy of `route_table_[method]`; the lookup
inserts the key when it is absent, so the router left behind is returned as well. -/
def match_ (r : Router E Callback) (method : http.Method) (path : String) :
    Except Router_error Callback × Router E Callback :=
  let (routes, r1) := r.index method
  if routes.isEmpty then
    (.error ⟨no_routes_what method⟩, r1)
  else
    match scan path routes with
    | some callback => (.ok callback, r1)
    | none => (.error ⟨no_matching_what method path⟩, r1)

/-- The sequence of routes registered under a method; an absent key has none. -/
def routes (r : Router E Callback) (method : http.Method) : List (Route E Callback) :=
  (r.route_table_ method).getD []

/-- The operation `register(method, pattern, handler)` of the specification: the
registration operation the router has for that method. -/
def register (method : http.Method) (route : String) (result : Callback)
    (r : Router E Callback) : Except Regex_error Unit × Router E Callback :=
  match method with
  | .OPTIONS => on_options route result r
  | .GET => on_get route result r
  | .HEAD => on_head route result r
  | .POST => on_post route result r
  | .PUT => on_put route result r
  | .DELETE => on_delete route result r
  | .TRACE => on_trace route result r
  | .CONNECT => on_connect route result r
  | .PATCH => on_patch route result r

/-- What the specification asks of a registration operation `op` for `method`, at a
router `r` and a pattern text that compiles to `e`: it succeeds, the sequence of
`method` is the earlier one followed by the one new route, and the entry of every other
method is the one it was. -/
def Appends_to (op : String → Callback → Router E Callback →
    Except Regex_error Unit × Router E Callback) (method : http.Method)
    (r : Router E Callback) (route : String) (result : Callback) (e : E.Route_expr) :
    Prop :=
  (op route result r).1 = .ok () ∧
  (op route result r).2.route_table_ method = some (r.routes method ++ [⟨e, result⟩]) ∧
  ∀ other, other ≠ method →
    (op route result r).2.route_table_ other = r.route_table_ other

end Router

/-- A `std::shared_ptr` to a connection: null, or the identity of the connection. -/
abbrev Connection_ptr := Option Nat

/-- The alias `IP_Stack`, a shared pointer to the network stack. -/
abbrev IP_Stack := Option Nat

/-- The pointer `Request_ptr` handed to a callback; the router never looks into it. -/
structure Request_ptr where
  id : Nat
  deriving DecidableEq, Repr

/-- The pointer `Response_ptr` handed to a callback; the router never looks into it. -/
structure Response_ptr where
  id : Nat
  deriving DecidableEq, Repr

/-- The data members of the class `Server`. `Middleware` is the callback type of
`middleware.hpp`. -/
structure Server (E : Regex_lib) (Callback Middleware : Type) where
  inet_ : IP_Stack
  router_ : Router E Callback
  connections_ : List Connection_ptr
  free_idx_ : List Nat
  middleware_ : List Middleware

namespace Server

variable {E : Regex_lib} {Callback Middleware : Type}

/-- `Server::set_routes`: forwards to `Router::install_new_configuration`. -/
def set_routes (s : Server E Callback Middleware) (routes : Router E Callback) :
    Server E Callback Middleware :=
  { s with router_ := s.router_.install_new_configuration routes }

/-- Modelled from the spec: the body of `Server::connect`, which `Server::listen`
installs for accepted connections, is in a source file that is not at hand; by the
specification `acquire(connection)` pops an index from the free-index stack when it is
non-empty, installs the connection there and returns the index, and otherwise appends a
new slot and returns its index. The head of `free_idx_` is the top of the stack. -/
def acquire (s : Server E Callback Middleware) (connection : Connection_ptr) :
    Nat × Server E Callback Middleware :=
  match s.free_idx_ with
  | idx :: rest =>
    (idx, { s with connections_ := s.connections_.set idx connection, free_idx_ := rest })
  | [] =>
    (s.connections_.length, { s with connections_ := s.connections_ ++ [connection] })

/-- Modelled from the spec: the body of `Server::close` is in a source file that is not
at hand; by the specification `release(slot_index)` clears the connection reference of
the slot and pushes the index onto the free-index stack, without any check. -/
def release (s : Server E Callback Middleware) (slot_index : Nat) :
    Server E Callback Middleware :=
  { s with connections_ := s.connections_.set slot_index none,
           free_idx_ := slot_index :: s.free_idx_ }

/-- `Server::close(conn_idx)`: releases the pool slot. -/
def close (s : Server E Callback Middleware) (conn_idx : Nat) :
    Server E Callback Middleware :=
  s.release conn_idx

/-- Connections acquired one after the other; the indices are returned in the order of
the acquisitions. -/
def acquire_all : List Connection_ptr → Server E Callback Middleware →
    List Nat × Server E Callback Middleware
  | [], s => ([], s)
  | connection :: more, s =>
    let (idx, s1) := s.acquire connection
    let (idxs, s2) := acquire_all more s1
    (idx :: idxs, s2)

/-- Slots closed one after the other, in the order of the list. -/
def close_all : List Nat → Server E Callback Middleware → Server E Callback Middleware
  | [], s => s
  | idx :: more, s => close_all more (s.close idx)

/-- The invariant of the pool that the specification states: no index is twice on the
free-index stack, and every free index is an index of the slot array. -/
def Pool_ok (s : Server E Callback Middleware) : Prop :=
  s.free_idx_.Nodup ∧ ∀ i ∈ s.free_idx_, i < s.connections_.length

end Server

/-- A server with three slots, the middle one free, used as a concrete input. -/
def Server.sample : Server ecma Unit Unit :=
  { inet_ := none, router_ := Router.empty, connections_ := [some 10, none, some 11],
    free_idx_ := [1], middleware_ := [] }

end server

namespace logger

/-- The class `::Logger` of the logging library (`logger/logger.hpp`), which is not part
of the repository; the dashboard uses its member function `entries(n)` only. -/
structure Logger where
  entries : Nat → List String

end logger

namespace dashboard

open server

/-- One call made on the JSON writer. -/
inductive Writer_call where
  | StartObject | EndObject | StartArray | EndArray
  | Key (name : String)
  | String (value : String)
  | Int (value : Int)
  | Uint (value : Nat)
  deriving DecidableEq, Repr

/-- Modelled from the spec: the type `Writer` comes from `component.hpp`, which is not
part of the sources at hand; the specification treats JSON emission as an opaque writer
sink, which is modelled by the sequence of calls made on it, oldest first. -/
abbrev Writer := List Writer_call

/-- Modelled from the spec: the abstract class `Component` comes from `component.hpp`,
which is not part of the sources at hand; the specification describes it as any object
exposing `key() → string` and `serialize(writer)`. -/
structure Component where
  key : String
  serialize : Writer → Writer

/-- A call a handler of the dashboard makes: on a component, or on a response. -/
inductive Action where
  | serialize (key : String)
  | send_buffer (res : Response_ptr) (content : Writer)
  deriving DecidableEq, Repr

/-- What a handler of the dashboard acts on: the shared writer `writer_` (with the buffer
it writes into) and the calls made so far, oldest first. -/
structure Output where
  writer_ : Writer
  actions : List Action

/-- The callback type of the router, `std::function<void(Request_ptr, Response_ptr)>`,
for the callbacks the dashboard registers. -/
abbrev Callback := Request_ptr → Response_ptr → Output → Output

/-- Modelled from the spec: `Dashboard::send_buffer` is defined in a source file that is
not at hand; by the specification it sends the buffer on the given response. -/
def send_buffer (res : Response_ptr) (o : Output) : Output :=
  { o with actions := o.actions ++ [Action.send_buffer res o.writer_] }

/-- The call `c.serialize(writer_)`. -/
def call_serialize (c : Component) (o : Output) : Output :=
  { writer_ := c.serialize o.writer_, actions := o.actions ++ [Action.serialize c.key] }

/-- The alias `Component_collection = std::unordered_map<std::string, const Component*>`. -/
abbrev Component_collection := String → Option Component

/-- The member function `emplace` of `std::unordered_map`: nothing is inserted when the
key is present. -/
def Component_collection.emplace (m : Component_collection) (key : String)
    (c : Component) : Component_collection :=
  fun k => if k = key then (match m k with | some old => some old | none => some c) else m k

/-- The data members of the class `Dashboard`; `writer_` stands for the writer and
the buffer it writes into. -/
structure Dashboard (E : Regex_lib) where
  router_ : Router E Callback
  writer_ : Writer
  components_ : Component_collection

namespace Dashboard

variable {E : Regex_lib}

/-- The lambda `[this, &c] (Request_ptr, Response_ptr res) { c.serialize(writer_);
send_buffer(res); }` registered by `Dashboard::add`. -/
def handler (c : Component) : Callback :=
  fun _ res o => send_buffer res (call_serialize c o)

/-- `Dashboard::add`. -/
def add (c : Component) (d : Dashboard E) : Except Regex_error Unit × Dashboard E :=
  let d1 := { d with components_ := d.components_.emplace c.key c }
  let (res, r) := d1.router_.on_get ("/" ++ c.key) (handler c)
  (res, { d1 with router_ := r })

/-- `Dashboard::construct<Comp>(args...)`: a component is made from the arguments and
added. -/
def construct {Args : Type} (Comp : Args → Component) (args : Args) (d : Dashboard E) :
    Except Regex_error Unit × Dashboard E :=
  add (Comp args) d

/-- A caller adding components one after the other; an exception ends the sequence. -/
def add_all : List Component → Dashboard E → Except Regex_error Unit × Dashboard E
  | [], d => (.ok (), d)
  | c :: cs, d =>
    match add c d with
    | (.ok _, d1) => add_all cs d1
    | (.error err, d1) => (.error err, d1)

end Dashboard

/-- `Logger::key`. -/
def Logger.key : String := "logger"

/-- `Memmap::key`. -/
def Memmap.key : String := "memmap"

/-- `StackSampler::key`. -/
def StackSampler.key : String := "stack_sampler"

/-- `Statman::key`. -/
def Statman.key : String := "statman"

/-- `Status::key`. -/
def Status.key : String := "status"

/-- The keys of the five components of the dashboard. -/
def component_keys : List String :=
  [Logger.key, Memmap.key, StackSampler.key, Statman.key, Status.key]

/-- A dashboard with an empty router, an empty writer and no component, used as a
concrete input. -/
def Dashboard.blank : Dashboard ecma := ⟨Router.empty, [], fun _ => none⟩

/-- Five components carrying the five keys, each writing an empty array, used as a
concrete input. -/
def sample_components : List Component :=
  component_keys.map (fun k => ⟨k, fun w => w ++ [.StartArray, .EndArray]⟩)

/-- The data members of the class `dashboard::Logger`. -/
structure Logger where
  logger_ : logger.Logger
  entries_ : Nat

namespace Logger

/-- The default `entries = 20` of the constructor `Logger(::Logger& logger, size_t
entries = 20)`. -/
def default_entries : Nat := 20

/-- The loop `while(it != entries.end()) writer.String(*it++);`, given the entries from
`it` to the end. -/
def write_strings : List String → Writer → Writer
  | [], writer => writer
  | entry :: more, writer => write_strings more (writer ++ [Writer_call.String entry])

/-- `Logger::serialize`. The iterator `it` is its distance from `entries.begin()`. -/
def serialize (self : Logger) (writer : Writer) : Writer :=
  let writer := writer ++ [Writer_call.StartArray]
  let entries := self.logger_.entries self.entries_
  let N := 50
  let it := if entries.length > N then entries.length - N else 0
  let writer := write_strings (entries.drop it) writer
  writer ++ [Writer_call.EndArray]

/-- The logger as a `Component`: `key()` and `serialize` override the base class. -/
def component (self : Logger) : Component :=
  ⟨Logger.key, self.serialize⟩

end Logger

/-- Three components that share the key `logger` and write different things, used as
concrete inputs. -/
def sample_holder : Component := ⟨"logger", fun w => w ++ [.StartObject, .EndObject]⟩

/-- The second of the three components with the key `logger`. -/
def sample_first : Component := ⟨"logger", fun w => w ++ [.StartArray, .EndArray]⟩

/-- The third of the three components with the key `logger`. -/
def sample_second : Component := ⟨"logger", fun w => w ++ [.Key "second"]⟩

end dashboard

/-! ## Theorems -/

namespace server

namespace Router

variable {E : Regex_lib} {Callback : Type}

theorem index_fst (r : Router E Callback) (method : http.Method) :
    (r.index method).1 = r.routes method := by
  unfold index routes
  cases h : r.route_table_ method <;> simp

theorem index_snd_routes (r : Router E Callback) (method other : http.Method) :
    (r.index method).2.routes other = r.routes other := by
  unfold index routes
  cases h : r.route_table_ method with
  | some rs => simp
  | none =>
    by_cases ho : other = method
    · subst ho; simp [set, h]
    · simp [set, ho]

theorem index_snd_of_ne (r : Router E Callback) {method other : http.Method}
    (ho : other ≠ method) :
    (r.index method).2.route_table_ other = r.route_table_ other := by
  unfold index
  cases h : r.route_table_ method <;> simp [set, ho]

theorem index_snd_self (r : Router E Callback) (method : http.Method) :
    (r.index method).2.route_table_ method = some (r.routes method) := by
  unfold index routes
  cases h : r.route_table_ method <;> simp [set, h]

theorem match_fst (r : Router E Callback) (method : http.Method) (path : String) :
    (r.match_ method path).1 =
      if (r.routes method).isEmpty then .error ⟨no_routes_what method⟩
      else match scan path (r.routes method) with
        | some callback => .ok callback
        | none => .error ⟨no_matching_what method path⟩ := by
  have hfst := index_fst r method
  rcases hidx : r.index method with ⟨rs, r1⟩
  rw [hidx] at hfst
  simp only at hfst
  subst hfst
  simp only [match_, hidx]
  cases hrs : r.routes method with
  | nil => simp
  | cons a l =>
    simp only [List.isEmpty_cons, Bool.false_eq_true, if_false]
    cases scan path (a :: l) <;> rfl

theorem match_snd (r : Router E Callback) (method : http.Method) (path : String) :
    (r.match_ method path).2 = (r.index method).2 := by
  rcases hidx : r.index method with ⟨rs, r1⟩
  simp only [match_, hidx]
  cases rs with
  | nil => simp
  | cons a l =>
    simp only [List.isEmpty_cons, Bool.false_eq_true, if_false]
    cases scan path (a :: l) <;> rfl

theorem match_fst_congr {r r2 : Router E Callback} {method : http.Method}
    (h : r2.routes method = r.routes method) (path : String) :
    (r2.match_ method path).1 = (r.match_ method path).1 := by
  rw [match_fst, match_fst, h]

theorem scan_eq_none (path : String) (rs : List (Route E Callback)) :
    scan path rs = none ↔ ∀ route ∈ rs, E.regex_match path route.expr = false := by
  induction rs with
  | nil => simp [scan]
  | cons a l ih =>
    unfold scan
    by_cases ha : E.regex_match path a.expr = true
    · simp [ha]
    · simp [ha, ih]

theorem scan_eq_some (path : String) (rs : List (Route E Callback)) (h : Callback) :
    scan path rs = some h ↔
      ∃ (i : Nat) (route : Route E Callback), rs[i]? = some route ∧ route.callback = h ∧
        E.regex_match path route.expr = true ∧
        ∀ (j : Nat) (earlier : Route E Callback), j < i → rs[j]? = some earlier →
          E.regex_match path earlier.expr = false := by
  induction rs with
  | nil => simp [scan]
  | cons a l ih =>
    unfold scan
    by_cases ha : E.regex_match path a.expr = true
    · simp only [ha, if_true, Option.some.injEq]
      constructor
      · intro hh
        exact ⟨0, a, by simp, hh, ha, by intro j _ hj; omega⟩
      · rintro ⟨i, route, hi, hcb, _, hfirst⟩
        cases i with
        | zero =>
          simp at hi
          subst hi; exact hcb
        | succ i =>
          have := hfirst 0 a (by omega) (by simp)
          rw [ha] at this
          cases this
    · simp only [ha, if_false, Bool.false_eq_true]
      rw [ih]
      constructor
      · rintro ⟨i, route, hi, hcb, hm, hfirst⟩
        refine ⟨i + 1, route, by simpa using hi, hcb, hm, ?_⟩
        intro j earlier hj hje
        cases j with
        | zero =>
          simp at hje
          subst hje
          simpa using ha
        | succ j =>
          exact hfirst j earlier (by omega) (by simpa using hje)
      · rintro ⟨i, route, hi, hcb, hm, hfirst⟩
        cases i with
        | zero =>
          simp at hi
          subst hi
          exact absurd hm ha
        | succ i =>
          refine ⟨i, route, by simpa using hi, hcb, hm, ?_⟩
          intro j earlier hj hje
          exact hfirst (j + 1) earlier (by omega) (by simpa using hje)

theorem match_ok_iff (r : Router E Callback) (method : http.Method) (path : String)
    (h : Callback) :
    (r.match_ method path).1 = .ok h ↔ scan path (r.routes method) = some h := by
  rw [match_fst]
  cases hrs : r.routes method with
  | nil => simp [scan]
  | cons a l =>
    simp only [List.isEmpty_cons, Bool.false_eq_true, if_false]
    cases hs : scan path (a :: l) <;> simp

theorem routes_of_table {r : Router E Callback} {method : http.Method}
    {rs : List (Route E Callback)} (h : r.route_table_ method = some rs) :
    r.routes method = rs := by
  simp [routes, h]

theorem scan_append_of_none (path : String) (rs more : List (Route E Callback))
    (h : ∀ route ∈ rs, E.regex_match path route.expr = false) :
    scan path (rs ++ more) = scan path more := by
  induction rs with
  | nil => rfl
  | cons a l ih =>
    have ha : E.regex_match path a.expr = false := h a (by simp)
    simp only [List.cons_append, scan, ha, Bool.false_eq_true, if_false]
    exact ih (fun route hr => h route (by simp [hr]))

theorem scan_append_of_some (path : String) (rs more : List (Route E Callback))
    (c : Callback) (h : scan path rs = some c) :
    scan path (rs ++ more) = some c := by
  induction rs with
  | nil => simp [scan] at h
  | cons a l ih =>
    by_cases ha : E.regex_match path a.expr = true
    · simpa [scan, ha] using h
    · simp only [scan, ha, if_false, Bool.false_eq_true] at h
      simpa [scan, ha] using ih h

theorem emplace_back_appends (r : Router E Callback) (method : http.Method)
    (route : String) (result : Callback) (e : E.Route_expr)
    (h : E.compile route = some e) :
    Appends_to (fun route result r => r.emplace_back method route result) method
      r route result e := by
  have hfst := index_fst r method
  rcases hidx : r.index method with ⟨rs, r1⟩
  rw [hidx] at hfst
  simp only at hfst
  subst hfst
  refine ⟨?_, ?_, ?_⟩
  · simp [emplace_back, hidx, Route.make, h]
  · simp [emplace_back, hidx, Route.make, h, set]
  · intro other ho
    have h1 := index_snd_of_ne r ho
    rw [hidx] at h1
    simpa [emplace_back, hidx, Route.make, h, set, ho] using h1

/-- C1. `Router::match` returns a callback exactly when that callback is the one of the
route at the first position of the method's sequence whose pattern matches the whole
path: the position holds the callback, its pattern matches, and no pattern at an earlier
position does. The route at such a position is the one returned. With the patterns
`/log.*` and `/logger` registered for GET in that order, after GET routes that do not
match, `match(GET, "/logger")` returns the callback registered with `/log.*`. -/
theorem match_first_registered_wins :
    (∀ (E : Regex_lib) (Callback : Type) (r : Router E Callback) (method : http.Method)
        (path : String) (h : Callback),
      (r.match_ method path).1 = .ok h ↔
        ∃ (i : Nat) (route : Route E Callback),
          (r.routes method)[i]? = some route ∧ route.callback = h ∧
          E.regex_match path route.expr = true ∧
          ∀ (j : Nat) (earlier : Route E Callback), j < i →
            (r.routes method)[j]? = some earlier →
            E.regex_match path earlier.expr = false) ∧
    (∀ (E : Regex_lib) (Callback : Type) (r : Router E Callback) (method : http.Method)
        (path : String) (i : Nat) (route : Route E Callback),
      (r.routes method)[i]? = some route →
      E.regex_match path route.expr = true →
      (∀ (j : Nat) (earlier : Route E Callback), j < i →
        (r.routes method)[j]? = some earlier →
        E.regex_match path earlier.expr = false) →
      (r.match_ method path).1 = .ok route.callback) ∧
    (∀ (Callback : Type) (first second : Callback) (r : Router ecma Callback),
      (∀ route ∈ r.routes http.Method.GET,
        ecma.regex_match "/logger" route.expr = false) →
      ((on_get "/logger" second (on_get "/log.*" first r).2).2.match_
        http.Method.GET "/logger").1 = .ok first) := by
  refine ⟨?_, ?_, ?_⟩
  · intro E Callback r method path h
    rw [match_ok_iff, scan_eq_some]
  · intro E Callback r method path i route hi hm hfirst
    rw [match_ok_iff, scan_eq_some]
    exact ⟨i, route, hi, rfl, hm, hfirst⟩
  · intro Callback first second r hold
    obtain ⟨e1, he1, hm1⟩ : ∃ e, ecma.compile "/log.*" = some e ∧
        ecma.regex_match "/logger" e = true := ⟨_, rfl, by decide⟩
    obtain ⟨e2, he2⟩ : ∃ e, ecma.compile "/logger" = some e := ⟨_, rfl⟩
    have h1 := emplace_back_appends r http.Method.GET "/log.*" first e1 he1
    have h2 := emplace_back_appends (on_get "/log.*" first r).2 http.Method.GET
      "/logger" second e2 he2
    have r1 : (on_get "/log.*" first r).2.routes http.Method.GET =
        r.routes http.Method.GET ++ [⟨e1, first⟩] := routes_of_table h1.2.1
    have r2 := routes_of_table h2.2.1
    rw [r1] at r2
    have r2b : (on_get "/logger" second (on_get "/log.*" first r).2).2.routes
        http.Method.GET =
        r.routes http.Method.GET ++ [⟨e1, first⟩] ++ [⟨e2, second⟩] := r2
    rw [match_ok_iff, r2b, List.append_assoc, scan_append_of_none _ _ _ hold]
    simp [scan, hm1]

/-- C2. When no route is registered under a method (its key is absent, or its sequence is
empty), `Router::match` for that method fails with the no-routes-for-method error for
every path, also after the sequence of another method has been replaced by any sequence
of routes. -/
theorem match_no_routes_for_method {E : Regex_lib} {Callback : Type}
    (r : Router E Callback) (M M2 : http.Method) (routesM : List (Route E Callback))
    (path : String) (hM : M ≠ M2) (h0 : r.routes M2 = []) :
    ((r.set M routesM).match_ M2 path).1 = .error ⟨no_routes_what M2⟩ ∧
    (r.match_ M2 path).1 = .error ⟨no_routes_what M2⟩ := by
  have hset : (r.set M routesM).routes M2 = [] := by
    have : M2 ≠ M := fun h => hM h.symm
    simpa [routes, set, this] using h0
  constructor
  · rw [match_fst, hset]; rfl
  · rw [match_fst, h0]; rfl

/-- C2, at a concrete input: a router with one GET route, asked for POST. -/
theorem match_no_routes_for_method_witness :
    http.Method.GET ≠ http.Method.POST ∧
    (on_get "/status" () (empty : Router ecma Unit)).2.routes http.Method.POST = [] ∧
    (((on_get "/status" () (empty : Router ecma Unit)).2.set http.Method.GET []).match_
      http.Method.POST "/status").1 = .error ⟨"No routes for method: [POST]"⟩ ∧
    ((on_get "/status" () (empty : Router ecma Unit)).2.match_
      http.Method.POST "/status").1 = .error ⟨"No routes for method: [POST]"⟩ :=
  ⟨by decide, rfl,
    match_no_routes_for_method (on_get "/status" () (empty : Router ecma Unit)).2
      http.Method.GET http.Method.POST [] "/status" (by decide) rfl⟩

theorem no_matching_what_ne_no_routes_what (method other : http.Method) (path : String) :
    no_matching_what method path ≠ no_routes_what other := by
  intro h
  have hd := congrArg (fun s : String => s.data[3]?) h
  have h1 : "No matching route for ".data = 'N' :: 'o' :: ' ' :: 'm' :: "atching route for ".data := rfl
  have h2 : "No routes for method: [".data = 'N' :: 'o' :: ' ' :: 'r' :: "outes for method: [".data := rfl
  simp only [no_matching_what, no_routes_what, String.data_append, h1, h2, List.cons_append] at hd
  simp at hd

/-- C3. When at least one route is registered under the method, `Router::match` fails
with the no-matching-route error exactly when no pattern of the method matches the whole
path; that error is not the no-routes-for-method error, which does not occur; any
failure is the no-matching-route error; and the call does not fail when some pattern of
the method matches. -/
theorem match_no_matching_route {E : Regex_lib} {Callback : Type}
    (r : Router E Callback) (method : http.Method) (path : String)
    (hne : r.routes method ≠ []) :
    ((r.match_ method path).1 = .error ⟨no_matching_what method path⟩ ↔
      ∀ route ∈ r.routes method, E.regex_match path route.expr = false) ∧
    (⟨no_matching_what method path⟩ : Router_error) ≠ ⟨no_routes_what method⟩ ∧
    (r.match_ method path).1 ≠ .error ⟨no_routes_what method⟩ ∧
    (∀ err, (r.match_ method path).1 = .error err →
      err = ⟨no_matching_what method path⟩) ∧
    ((∃ route ∈ r.routes method, E.regex_match path route.expr = true) →
      ∃ h, (r.match_ method path).1 = .ok h) := by
  have hmsg : (⟨no_matching_what method path⟩ : Router_error) ≠ ⟨no_routes_what method⟩ := by
    intro h
    exact no_matching_what_ne_no_routes_what method method path (congrArg Router_error.what h)
  have hemp : (r.routes method).isEmpty = false := by
    cases hrs : r.routes method with
    | nil => exact absurd hrs hne
    | cons a l => rfl
  have hfst := match_fst r method path
  simp only [hemp, Bool.false_eq_true, if_false] at hfst
  cases hs : scan path (r.routes method) with
  | none =>
    rw [hs] at hfst
    have hall := (scan_eq_none path (r.routes method)).1 hs
    refine ⟨?_, hmsg, ?_, ?_, ?_⟩
    · rw [hfst]; simpa using hall
    · rw [hfst]; intro h; exact hmsg (by injection h)
    · intro err herr; rw [hfst] at herr; injection herr with herr; exact herr.symm
    · rintro ⟨route, hr, hm⟩
      rw [hall route hr] at hm
      cases hm
  | some c =>
    rw [hs] at hfst
    have hnot : ¬ ∀ route ∈ r.routes method, E.regex_match path route.expr = false := by
      intro hall
      rw [(scan_eq_none path (r.routes method)).2 hall] at hs
      cases hs
    refine ⟨?_, hmsg, ?_, ?_, ?_⟩
    · rw [hfst]; simpa using hnot
    · rw [hfst]; intro h; cases h
    · intro err herr; rw [hfst] at herr; cases herr
    · intro _; exact ⟨c, hfst⟩

/-- C3, at a concrete input: a router with the one GET route `/status`, asked for
`GET /memmap`. -/
theorem match_no_matching_route_witness :
    (on_get "/status" () (empty : Router ecma Unit)).2.routes http.Method.GET ≠ [] ∧
    (((on_get "/status" () (empty : Router ecma Unit)).2.match_
        http.Method.GET "/memmap").1 = .error ⟨no_matching_what http.Method.GET "/memmap"⟩ ↔
      ∀ route ∈ (on_get "/status" () (empty : Router ecma Unit)).2.routes http.Method.GET,
        ecma.regex_match "/memmap" route.expr = false) ∧
    ((on_get "/status" () (empty : Router ecma Unit)).2.match_
        http.Method.GET "/memmap").1 = .error ⟨"No matching route for GET /memmap"⟩ :=
  ⟨fun h => absurd (congrArg List.length h) (by decide),
    (match_no_matching_route (on_get "/status" () (empty : Router ecma Unit)).2
      http.Method.GET "/memmap"
      (fun h => absurd (congrArg List.length h) (by decide))).1,
    rfl⟩

theorem str_infix_no_routes_what (method : http.Method) :
    (http.method.str method).data <:+: (no_routes_what method).data := by
  simp only [no_routes_what, String.data_append]
  exact ⟨_, _, rfl⟩

theorem str_infix_no_matching_what (method : http.Method) (path : String) :
    (http.method.str method).data <:+: (no_matching_what method path).data := by
  simp only [no_matching_what, String.data_append]
  exact ⟨"No matching route for ".data, " ".data ++ path.data, by simp⟩

theorem path_infix_no_matching_what (method : http.Method) (path : String) :
    path.data <:+: (no_matching_what method path).data := by
  simp only [no_matching_what, String.data_append]
  exact (List.suffix_append _ _).isInfix

/-- C4, refuted as stated: on a router without routes, `match(GET, "/x")` throws an error
whose message is `No routes for method: [GET]`, and the path `/x` does not occur in it. -/
theorem match_no_routes_error_omits_path :
    ((empty : Router ecma Unit).match_ http.Method.GET "/x").1 =
      .error ⟨"No routes for method: [GET]"⟩ ∧
    ¬ ("/x".data <:+: "No routes for method: [GET]".data) :=
  ⟨rfl, by decide⟩

/-- C4, amended. Every failure of `Router::match` carries the string form of the requested
method in its message. When the method has routes the failure is the no-matching-route
one and its message carries the path as well. When the method has no routes the message
is `No routes for method: [` followed by the method and `]`, built without the path. -/
theorem match_failure_payload {E : Regex_lib} {Callback : Type}
    (r : Router E Callback) (method : http.Method) (path : String) (err : Router_error)
    (h : (r.match_ method path).1 = .error err) :
    (http.method.str method).data <:+: err.what.data ∧
    (r.routes method ≠ [] →
      err.what = "No matching route for " ++ http.method.str method ++ " " ++ path ∧
      path.data <:+: err.what.data) ∧
    (r.routes method = [] →
      err.what = "No routes for method: [" ++ http.method.str method ++ "]") := by
  rw [match_fst] at h
  cases hrs : r.routes method with
  | nil =>
    rw [hrs] at h
    simp only [List.isEmpty_nil, if_true] at h
    injection h with h
    subst h
    exact ⟨str_infix_no_routes_what method, fun hne => absurd rfl hne, fun _ => rfl⟩
  | cons a l =>
    rw [hrs] at h
    simp only [List.isEmpty_cons, Bool.false_eq_true, if_false] at h
    cases hs : scan path (a :: l) with
    | some c => rw [hs] at h; cases h
    | none =>
      rw [hs] at h
      injection h with h
      subst h
      exact ⟨str_infix_no_matching_what method path,
        fun _ => ⟨rfl, path_infix_no_matching_what method path⟩,
        fun hnil => by cases hnil⟩

/-- C4 amended, at a concrete input: the one GET route `/status`, asked for
`GET /memmap`. -/
theorem match_failure_payload_witness :
    ((on_get "/status" () (empty : Router ecma Unit)).2.match_
        http.Method.GET "/memmap").1 = .error ⟨"No matching route for GET /memmap"⟩ ∧
    "GET".data <:+: "No matching route for GET /memmap".data ∧
    "/memmap".data <:+: "No matching route for GET /memmap".data :=
  ⟨rfl,
    (match_failure_payload (on_get "/status" () (empty : Router ecma Unit)).2
      http.Method.GET "/memmap" ⟨"No matching route for GET /memmap"⟩ rfl).1,
    ((match_failure_payload (on_get "/status" () (empty : Router ecma Unit)).2
      http.Method.GET "/memmap" ⟨"No matching route for GET /memmap"⟩ rfl).2.1
      (fun h => absurd (congrArg List.length h) (by decide))).2⟩

/-- C5, refuted as stated: on a router whose table has no key, `match(GET, "/x")` leaves
a table that has the key GET (with an empty sequence), so the router after the call is
not the router before it. -/
theorem match_inserts_absent_key :
    (empty : Router ecma Unit).route_table_ http.Method.GET = none ∧
    ((empty : Router ecma Unit).match_ http.Method.GET "/x").2.route_table_
      http.Method.GET = some [] ∧
    ((empty : Router ecma Unit).match_ http.Method.GET "/x").2 ≠ empty := by
  refine ⟨rfl, rfl, ?_⟩
  intro h
  have h2 := congrArg (fun r : Router ecma Unit => (r.route_table_ http.Method.GET).isSome) h
  exact absurd h2 (by decide)

/-- C5, amended. `Router::match` leaves the sequence of routes of every method (an absent
key read as the empty sequence) as it was, and the entry of every method other than the
requested one as it was, whether it returns a callback or fails. When the requested
method has a key, the router after the call is the router before it. When it has none,
the call leaves the key behind with an empty sequence. -/
theorem match_frame {E : Regex_lib} {Callback : Type}
    (r : Router E Callback) (method : http.Method) (path : String) :
    (∀ other, (r.match_ method path).2.routes other = r.routes other) ∧
    (∀ other, other ≠ method →
      (r.match_ method path).2.route_table_ other = r.route_table_ other) ∧
    (r.route_table_ method ≠ none → (r.match_ method path).2 = r) ∧
    (r.route_table_ method = none →
      (r.match_ method path).2.route_table_ method = some []) := by
  rw [match_snd]
  refine ⟨fun other => index_snd_routes r method other,
    fun other ho => index_snd_of_ne r ho, ?_, ?_⟩
  · intro hk
    unfold index
    cases h : r.route_table_ method with
    | none => exact absurd h hk
    | some rs => rfl
  · intro hk
    rw [index_snd_self, routes, hk]
    rfl

/-- C6. A call of `Router::match` does not change the outcome of a later call: on the
router that `match(method, path)` leaves behind, `match(method2, path2)` has the outcome
(the same callback, or the same error) it has on the original router; in particular the
same call twice in a row gives the same outcome twice, and the second call leaves the
router as the first one left it. -/
theorem match_deterministic {E : Regex_lib} {Callback : Type}
    (r : Router E Callback) (method method2 : http.Method) (path path2 : String) :
    ((r.match_ method path).2.match_ method2 path2).1 = (r.match_ method2 path2).1 ∧
    ((r.match_ method path).2.match_ method path).1 = (r.match_ method path).1 ∧
    ((r.match_ method path).2.match_ method path).2 = (r.match_ method path).2 := by
  have hcongr : ∀ (m : http.Method) (p : String),
      ((r.match_ method path).2.match_ m p).1 = (r.match_ m p).1 := by
    intro m p
    apply match_fst_congr
    rw [match_snd]
    exact index_snd_routes r method m
  refine ⟨hcongr method2 path2, hcongr method path, ?_⟩
  rw [match_snd, match_snd]
  have hself := index_snd_self r method
  unfold index at hself ⊢
  cases h : r.route_table_ method with
  | some rs => simp [h]
  | none => simp [h, set]

/-- C7. Each of the nine registration operations, given a pattern text that compiles,
succeeds and leaves under its own method (OPTIONS, GET, HEAD, POST, PUT, DELETE, TRACE,
CONNECT, PATCH respectively) the earlier routes in their order followed by the one new
route, and leaves the entry of every other method as it was. -/
theorem registration_appends {E : Regex_lib} {Callback : Type}
    (r : Router E Callback) (route : String) (result : Callback) (e : E.Route_expr)
    (h : E.compile route = some e) :
    Appends_to on_options http.Method.OPTIONS r route result e ∧
    Appends_to on_get http.Method.GET r route result e ∧
    Appends_to on_head http.Method.HEAD r route result e ∧
    Appends_to on_post http.Method.POST r route result e ∧
    Appends_to on_put http.Method.PUT r route result e ∧
    Appends_to on_delete http.Method.DELETE r route result e ∧
    Appends_to on_trace http.Method.TRACE r route result e ∧
    Appends_to on_connect http.Method.CONNECT r route result e ∧
    Appends_to on_patch http.Method.PATCH r route result e :=
  ⟨emplace_back_appends r _ route result e h, emplace_back_appends r _ route result e h,
    emplace_back_appends r _ route result e h, emplace_back_appends r _ route result e h,
    emplace_back_appends r _ route result e h, emplace_back_appends r _ route result e h,
    emplace_back_appends r _ route result e h, emplace_back_appends r _ route result e h,
    emplace_back_appends r _ route result e h⟩

/-- C7, at a concrete input: `/status` registered for GET on a router that has the GET
route `/log.*`. -/
theorem registration_appends_witness :
    ecma.compile "/status" =
      some ("/status".data.map (fun c => ⟨Ecma.Atom.chr c, false⟩)) ∧
    Appends_to on_get http.Method.GET (on_get "/log.*" 1 (empty : Router ecma Nat)).2
      "/status" 2 ("/status".data.map (fun c => ⟨Ecma.Atom.chr c, false⟩)) :=
  ⟨rfl, (registration_appends (on_get "/log.*" 1 (empty : Router ecma Nat)).2
    "/status" 2 ("/status".data.map (fun c => ⟨Ecma.Atom.chr c, false⟩)) rfl).2.1⟩

end Router

/-- C8. After `Router::install_new_configuration(new_routes)`, and after
`Server::set_routes(new_routes)`, the route table is the table of `new_routes`, and for
every method and path `Router::match` has the outcome it has on `new_routes`, whatever
routes the router held before. -/
theorem install_new_configuration_replaces {E : Regex_lib} {Callback Middleware : Type}
    (r new_routes : Router E Callback) (s : Server E Callback Middleware)
    (method : http.Method) (path : String) :
    (r.install_new_configuration new_routes).route_table_ = new_routes.route_table_ ∧
    ((r.install_new_configuration new_routes).match_ method path).1 =
      (new_routes.match_ method path).1 ∧
    (s.set_routes new_routes).router_.route_table_ = new_routes.route_table_ ∧
    ((s.set_routes new_routes).router_.match_ method path).1 =
      (new_routes.match_ method path).1 :=
  ⟨rfl, rfl, rfl, rfl⟩

namespace Router

variable {E : Regex_lib} {Callback : Type}

theorem register_eq_emplace_back (method : http.Method) (route : String)
    (result : Callback) (r : Router E Callback) :
    register method route result r = r.emplace_back method route result := by
  cases method <;> rfl

/-- C9. Registering under a method a pattern that matches exactly the paths matched by
the pattern of a route registered earlier under that method succeeds and puts the new
route last in the sequence; for every method and path the outcome of `Router::match` is
the one it was before the registration; every callback returned afterwards is the
callback of a route that was there before, at the first matching position; and whenever
the new pattern matches a path, a route at an earlier position matches it, so the scan
never reaches the new route. -/
theorem register_shadowed {E : Regex_lib} {Callback : Type}
    (r : Router E Callback) (method : http.Method) (route : String) (result : Callback)
    (e : E.Route_expr) (earlier : Route E Callback)
    (hc : E.compile route = some e)
    (hmem : earlier ∈ r.routes method)
    (heq : ∀ path, E.regex_match path earlier.expr = E.regex_match path e) :
    (register method route result r).1 = .ok () ∧
    (register method route result r).2.routes method =
      r.routes method ++ [⟨e, result⟩] ∧
    (∀ (m : http.Method) (path : String),
      ((register method route result r).2.match_ m path).1 = (r.match_ m path).1) ∧
    (∀ (m : http.Method) (path : String) (h : Callback),
      ((register method route result r).2.match_ m path).1 = .ok h →
      ∃ (i : Nat) (old : Route E Callback),
        (r.routes m)[i]? = some old ∧ old.callback = h ∧
        E.regex_match path old.expr = true ∧
        ∀ (j : Nat) (before : Route E Callback), j < i →
          (r.routes m)[j]? = some before → E.regex_match path before.expr = false) ∧
    (∀ path, E.regex_match path e = true →
      ∃ (i : Nat) (old : Route E Callback), i < (r.routes method).length ∧
        (r.routes method)[i]? = some old ∧ E.regex_match path old.expr = true) := by
  have happ := emplace_back_appends r method route result e hc
  rw [register_eq_emplace_back]
  have hroutes : (r.emplace_back method route result).2.routes method =
      r.routes method ++ [⟨e, result⟩] := routes_of_table happ.2.1
  have hsame : ∀ (m : http.Method) (path : String),
      ((r.emplace_back method route result).2.match_ m path).1 = (r.match_ m path).1 := by
    intro m path
    by_cases hm : m = method
    · subst hm
      rw [match_fst, match_fst, hroutes]
      cases hrs : r.routes m with
      | nil => rw [hrs] at hmem; cases hmem
      | cons a l =>
        rw [← hrs]
        have h1 : (r.routes m ++ [(⟨e, result⟩ : Route E Callback)]).isEmpty = false := by
          rw [hrs]; rfl
        have h2 : (r.routes m).isEmpty = false := by rw [hrs]; rfl
        simp only [h1, h2, Bool.false_eq_true, if_false]
        cases hs : scan path (r.routes m) with
        | some c => rw [scan_append_of_some path _ _ c hs]
        | none =>
          have hall := (scan_eq_none path (r.routes m)).1 hs
          have he : E.regex_match path e = false := by rw [← heq]; exact hall earlier hmem
          rw [scan_append_of_none path _ _ hall]
          simp [scan, he]
    · apply match_fst_congr
      unfold routes
      rw [happ.2.2 m hm]
  refine ⟨happ.1, hroutes, hsame, ?_, ?_⟩
  · intro m path h hok
    rw [hsame, match_ok_iff, scan_eq_some] at hok
    exact hok
  · intro path hp
    obtain ⟨i, hi, hget⟩ := List.getElem_of_mem hmem
    refine ⟨i, earlier, hi, ?_, ?_⟩
    · rw [List.getElem?_eq_getElem hi, hget]
    · rw [heq]; exact hp

/-- C9, at a concrete input: `/log.*` registered for GET a second time. -/
theorem register_shadowed_witness :
    ecma.compile "/log.*" =
      some ("/log".data.map (fun c => ⟨Ecma.Atom.chr c, false⟩) ++ [⟨Ecma.Atom.dot, true⟩]) ∧
    (⟨"/log".data.map (fun c => ⟨Ecma.Atom.chr c, false⟩) ++ [⟨Ecma.Atom.dot, true⟩], 1⟩ :
      Route ecma Nat) ∈ (on_get "/log.*" 1 (empty : Router ecma Nat)).2.routes
        http.Method.GET ∧
    (register http.Method.GET "/log.*" 2 (on_get "/log.*" 1 (empty : Router ecma Nat)).2).1
      = .ok () ∧
    ((register http.Method.GET "/log.*" 2
      (on_get "/log.*" 1 (empty : Router ecma Nat)).2).2.match_
        http.Method.GET "/logger").1 = .ok 1 :=
  ⟨rfl, List.Mem.head _,
    (register_shadowed (on_get "/log.*" 1 (empty : Router ecma Nat)).2 http.Method.GET
      "/log.*" 2 _
      ⟨"/log".data.map (fun c => ⟨Ecma.Atom.chr c, false⟩) ++ [⟨Ecma.Atom.dot, true⟩], 1⟩
      rfl (List.Mem.head _) (fun _ => rfl)).1,
    ((register_shadowed (on_get "/log.*" 1 (empty : Router ecma Nat)).2 http.Method.GET
      "/log.*" 2 _
      ⟨"/log".data.map (fun c => ⟨Ecma.Atom.chr c, false⟩) ++ [⟨Ecma.Atom.dot, true⟩], 1⟩
      rfl (List.Mem.head _) (fun _ => rfl)).2.2.1
      http.Method.GET "/logger").trans rfl⟩

theorem match_ok_of_mem (r : Router E Callback) (method : http.Method) (path : String)
    (route : Route E Callback) (hr : route ∈ r.routes method)
    (hm : E.regex_match path route.expr = true) :
    ∃ h, (r.match_ method path).1 = .ok h := by
  cases hs : scan path (r.routes method) with
  | some c => exact ⟨c, (match_ok_iff r method path c).2 hs⟩
  | none =>
    have := (scan_eq_none path (r.routes method)).1 hs route hr
    rw [hm] at this
    cases this

end Router

end server

namespace dashboard

open server

namespace Dashboard

variable {E : Regex_lib}

theorem add_appends (c : Component) (d : Dashboard E) (e : E.Route_expr)
    (h : E.compile ("/" ++ c.key) = some e) :
    (add c d).1 = .ok () ∧
    (add c d).2.router_.route_table_ http.Method.GET =
      some (d.router_.routes http.Method.GET ++ [⟨e, handler c⟩]) ∧
    ∀ other, other ≠ http.Method.GET →
      (add c d).2.router_.route_table_ other = d.router_.route_table_ other := by
  have happ := Router.emplace_back_appends d.router_ http.Method.GET ("/" ++ c.key)
    (handler c) e h
  exact happ

theorem add_all_routes (cs : List Component) (d : Dashboard E)
    (hc : ∀ c ∈ cs, ∃ e, E.compile ("/" ++ c.key) = some e) :
    (add_all cs d).1 = .ok () ∧
    (add_all cs d).2.router_.routes http.Method.GET =
      d.router_.routes http.Method.GET ++
        cs.filterMap (fun c =>
          (E.compile ("/" ++ c.key)).map (fun e => (⟨e, handler c⟩ : Route E Callback))) := by
  induction cs generalizing d with
  | nil => simp [add_all]
  | cons c cs ih =>
    obtain ⟨e, he⟩ := hc c (by simp)
    have ha := add_appends c d e he
    have ih2 := ih (add c d).2 (fun c2 h2 => hc c2 (by simp [h2]))
    rcases hadd : add c d with ⟨res, d1⟩
    rw [hadd] at ha ih2
    simp only at ha ih2
    obtain ⟨hres, hget, _⟩ := ha
    subst hres
    simp only [add_all, hadd]
    refine ⟨ih2.1, ?_⟩
    rw [ih2.2, Router.routes_of_table hget]
    simp [he]

end Dashboard

/-- C10, refuted as stated: after five components with the keys of Logger, Memmap,
StackSampler, Statman and Status are added to a dashboard with an empty router,
`match(GET, "/stacksampler")` fails with the no-matching-route error; the key of
`StackSampler` is `stack_sampler`. -/
theorem stacksampler_path_unmatched :
    StackSampler.key = "stack_sampler" ∧
    sample_components.map Component.key =
      [Logger.key, Memmap.key, StackSampler.key, Statman.key, Status.key] ∧
    (Dashboard.add_all sample_components Dashboard.blank).1 = .ok () ∧
    ((Dashboard.add_all sample_components Dashboard.blank).2.router_.match_
      http.Method.GET "/stacksampler").1 =
      .error ⟨"No matching route for GET /stacksampler"⟩ :=
  ⟨rfl, rfl, rfl, rfl⟩

/-- C10, amended. The keys of Logger, Memmap, StackSampler, Statman and Status give the
five patterns `/logger`, `/memmap`, `/stack_sampler`, `/statman`, `/status`. For a
component with one of these keys `Dashboard::add` succeeds and registers, last in the GET
sequence, a route whose pattern is `/` followed by the key and whose callback is the
handler of the component. After components with these keys have been added to any
dashboard, in any order, each of the five keys at least once, `match(GET, p)` returns a
callback for each of these five paths `p`. -/
theorem dashboard_http_surface (d : Dashboard ecma) (cs : List Component)
    (h1 : ∀ c ∈ cs, c.key ∈ component_keys)
    (h2 : ∀ k ∈ component_keys, ∃ c ∈ cs, c.key = k) :
    component_keys.map (fun k => "/" ++ k) =
      ["/logger", "/memmap", "/stack_sampler", "/statman", "/status"] ∧
    (∀ c ∈ cs, ∀ d0 : Dashboard ecma, ∃ e, ecma.compile ("/" ++ c.key) = some e ∧
      (Dashboard.add c d0).1 = .ok () ∧
      (Dashboard.add c d0).2.router_.route_table_ http.Method.GET =
        some (d0.router_.routes http.Method.GET ++ [⟨e, Dashboard.handler c⟩])) ∧
    (Dashboard.add_all cs d).1 = .ok () ∧
    ∀ p ∈ ["/logger", "/memmap", "/stack_sampler", "/statman", "/status"],
      ∃ h, ((Dashboard.add_all cs d).2.router_.match_ http.Method.GET p).1 = .ok h := by
  have hkeys : ∀ k ∈ component_keys, ∃ e, ecma.compile ("/" ++ k) = some e ∧
      ecma.regex_match ("/" ++ k) e = true := by
    have hdec : ∀ k ∈ component_keys,
        (ecma.compile ("/" ++ k)).any (fun e => ecma.regex_match ("/" ++ k) e) = true := by
      decide
    intro k hk
    have := hdec k hk
    cases hcomp : ecma.compile ("/" ++ k) with
    | none => rw [hcomp] at this; cases this
    | some e => rw [hcomp] at this; exact ⟨e, rfl, this⟩
  have hc : ∀ c ∈ cs, ∃ e, ecma.compile ("/" ++ c.key) = some e := by
    intro c hcs
    obtain ⟨e, he, _⟩ := hkeys c.key (h1 c hcs)
    exact ⟨e, he⟩
  have hall := Dashboard.add_all_routes cs d hc
  refine ⟨rfl, ?_, hall.1, ?_⟩
  · intro c hcs d0
    obtain ⟨e, he⟩ := hc c hcs
    have ha := Dashboard.add_appends c d0 e he
    exact ⟨e, he, ha.1, ha.2.1⟩
  · intro p hp
    have hp2 : p ∈ component_keys.map (fun k => "/" ++ k) := hp
    obtain ⟨k, hk, rfl⟩ := List.mem_map.1 hp2
    obtain ⟨c, hcs, hck⟩ := h2 k hk
    obtain ⟨e, he, hm⟩ := hkeys k hk
    subst hck
    apply Router.match_ok_of_mem _ _ _ ⟨e, Dashboard.handler c⟩ _ hm
    rw [hall.2]
    apply List.mem_append_right
    rw [List.mem_filterMap]
    exact ⟨c, hcs, by simp [he]⟩

/-- C10 amended, at a concrete input: five components with the five keys, added to a
dashboard with an empty router. -/
theorem dashboard_http_surface_witness :
    (∀ c ∈ sample_components, c.key ∈ component_keys) ∧
    (∀ k ∈ component_keys, ∃ c ∈ sample_components, c.key = k) ∧
    ∀ p ∈ ["/logger", "/memmap", "/stack_sampler", "/statman", "/status"],
      ∃ h, ((Dashboard.add_all sample_components Dashboard.blank).2.router_.match_
          http.Method.GET p).1 = .ok h :=
  ⟨by simp [sample_components], by simp [sample_components],
    (dashboard_http_surface Dashboard.blank sample_components
      (by simp [sample_components]) (by simp [sample_components])).2.2.2⟩

end dashboard

namespace server

namespace Router

variable {E : Regex_lib} {Callback : Type}

theorem emplace_back_other (r : Router E Callback) (method : http.Method)
    (route : String) (result : Callback) {other : http.Method} (ho : other ≠ method) :
    (r.emplace_back method route result).2.route_table_ other = r.route_table_ other := by
  have h1 := index_snd_of_ne r ho
  rcases hidx : r.index method with ⟨rs, r1⟩
  rw [hidx] at h1
  cases hc : E.compile route with
  | none => simpa [emplace_back, hidx, Route.make, hc] using h1
  | some e => simpa [emplace_back, hidx, Route.make, hc, set, ho] using h1

theorem emplace_back_routes_prefix (r : Router E Callback) (method : http.Method)
    (route : String) (result : Callback) :
    r.routes method <+: (r.emplace_back method route result).2.routes method := by
  have hfst := index_fst r method
  have hself := index_snd_self r method
  rcases hidx : r.index method with ⟨rs, r1⟩
  rw [hidx] at hfst hself
  simp only at hfst hself
  subst hfst
  cases hc : E.compile route with
  | none =>
    have : (r.emplace_back method route result).2.routes method = r.routes method := by
      simp [emplace_back, hidx, Route.make, hc, routes, hself]
    rw [this]
  | some e =>
    have : (r.emplace_back method route result).2.routes method =
        r.routes method ++ [⟨e, result⟩] := by
      simp [emplace_back, hidx, Route.make, hc, routes, set]
    rw [this]
    exact List.prefix_append _ _

end Router

end server

namespace dashboard

open server

/-- C11. `Dashboard::add`, and `Dashboard::construct` which calls it, leave the entry of
every method other than GET in the router of the dashboard as it was, whether the
registration succeeds or throws, and keep the earlier GET routes at the front of the GET
sequence; for every method other than GET and every path `Router::match` has the same
outcome on the router after the call as on the router before it. -/
theorem add_changes_get_only {E : Regex_lib} (d : Dashboard E) (c : Component)
    {Args : Type} (Comp : Args → Component) (args : Args) :
    (∀ other, other ≠ http.Method.GET →
      (Dashboard.add c d).2.router_.route_table_ other = d.router_.route_table_ other) ∧
    (∀ other path, other ≠ http.Method.GET →
      ((Dashboard.add c d).2.router_.match_ other path).1 =
        (d.router_.match_ other path).1) ∧
    d.router_.routes http.Method.GET <+:
      (Dashboard.add c d).2.router_.routes http.Method.GET ∧
    (∀ other, other ≠ http.Method.GET →
      (Dashboard.construct Comp args d).2.router_.route_table_ other =
        d.router_.route_table_ other) ∧
    (∀ other path, other ≠ http.Method.GET →
      ((Dashboard.construct Comp args d).2.router_.match_ other path).1 =
        (d.router_.match_ other path).1) := by
  have hadd : ∀ (c : Component) (other : http.Method), other ≠ http.Method.GET →
      (Dashboard.add c d).2.router_.route_table_ other = d.router_.route_table_ other :=
    fun c other ho => Router.emplace_back_other d.router_ http.Method.GET ("/" ++ c.key)
      (Dashboard.handler c) ho
  have hmatch : ∀ (c : Component) (other : http.Method) (path : String),
      other ≠ http.Method.GET →
      ((Dashboard.add c d).2.router_.match_ other path).1 =
        (d.router_.match_ other path).1 := by
    intro c other path ho
    apply Router.match_fst_congr
    unfold Router.routes
    rw [hadd c other ho]
  exact ⟨hadd c, fun other path ho => hmatch c other path ho,
    Router.emplace_back_routes_prefix d.router_ http.Method.GET ("/" ++ c.key)
      (Dashboard.handler c),
    hadd (Comp args), fun other path ho => hmatch (Comp args) other path ho⟩

namespace Logger

theorem write_strings_eq (entries : List String) (writer : Writer) :
    write_strings entries writer = writer ++ entries.map Writer_call.String := by
  induction entries generalizing writer with
  | nil => simp [write_strings]
  | cons entry more ih => simp [write_strings, ih]

theorem serialize_eq (self : Logger) (writer : Writer) :
    self.serialize writer =
      writer ++ [Writer_call.StartArray] ++
        ((self.logger_.entries self.entries_).drop
          ((self.logger_.entries self.entries_).length - 50)).map Writer_call.String ++
        [Writer_call.EndArray] := by
  unfold serialize
  simp only [write_strings_eq]
  by_cases h : (self.logger_.entries self.entries_).length > 50
  · simp [h]
  · have h0 : (self.logger_.entries self.entries_).length - 50 = 0 := by omega
    simp [h, h0]

end Logger

/-- C13. `Logger::serialize` appends to the writer one array: `StartArray`, then one
`String` for each of the last `min(50, k)` of the `k` entries that `logger.entries(N)`
returns, in their order, then `EndArray`. These are all `k` entries when `k <= 50` and the
final 50 when `k > 50`, so at most 50 strings are written, whatever `N` is. -/
theorem logger_serialize_last_fifty (self : Logger) (writer : Writer) :
    self.serialize writer =
      writer ++ [Writer_call.StartArray] ++
        ((self.logger_.entries self.entries_).drop
          ((self.logger_.entries self.entries_).length -
            min 50 (self.logger_.entries self.entries_).length)).map Writer_call.String ++
        [Writer_call.EndArray] ∧
    ((self.logger_.entries self.entries_).drop
      ((self.logger_.entries self.entries_).length -
        min 50 (self.logger_.entries self.entries_).length)).length =
      min 50 (self.logger_.entries self.entries_).length ∧
    ((self.logger_.entries self.entries_).length ≤ 50 →
      self.serialize writer =
        writer ++ [Writer_call.StartArray] ++
          (self.logger_.entries self.entries_).map Writer_call.String ++
          [Writer_call.EndArray]) ∧
    ((self.logger_.entries self.entries_).length > 50 →
      ∃ strings, strings <:+ self.logger_.entries self.entries_ ∧ strings.length = 50 ∧
        self.serialize writer =
          writer ++ [Writer_call.StartArray] ++ strings.map Writer_call.String ++
            [Writer_call.EndArray]) ∧
    (self.serialize writer).length ≤ writer.length + 52 ∧
    self.component.key = "logger" ∧ self.component.serialize = self.serialize := by
  have hs := Logger.serialize_eq self writer
  generalize self.logger_.entries self.entries_ = entries at hs ⊢
  refine ⟨?_, ?_, ?_, ?_, ?_, rfl, rfl⟩
  · rw [hs]
    by_cases h : entries.length ≤ 50
    · rw [Nat.min_eq_right h]
      simp [Nat.sub_eq_zero_of_le h]
    · rw [Nat.min_eq_left (by omega)]
  · rw [List.length_drop]; omega
  · intro h
    rw [hs, Nat.sub_eq_zero_of_le h]
    simp
  · intro h
    refine ⟨entries.drop (entries.length - 50), List.drop_suffix _ _, ?_, hs⟩
    rw [List.length_drop]; omega
  · rw [hs]
    simp only [List.length_append, List.length_map, List.length_drop, List.length_cons,
      List.length_nil]
    omega

end dashboard

namespace server

namespace Server

variable {E : Regex_lib} {Callback Middleware : Type}

theorem acquire_all_cons (s : Server E Callback Middleware) (connection : Connection_ptr)
    (more : List Connection_ptr) :
    s.acquire_all (connection :: more) =
      ((s.acquire connection).1 :: ((s.acquire connection).2.acquire_all more).1,
        ((s.acquire connection).2.acquire_all more).2) := rfl

theorem acquire_all_length (conns : List Connection_ptr) (s : Server E Callback Middleware) :
    (s.acquire_all conns).1.length = conns.length := by
  induction conns generalizing s with
  | nil => rfl
  | cons c more ih => rw [acquire_all_cons]; simp [ih]

theorem acquire_all_of_free (conns : List Connection_ptr) (s : Server E Callback Middleware)
    (hlen : conns.length ≤ s.free_idx_.length) :
    (s.acquire_all conns).1 = s.free_idx_.take conns.length ∧
    (s.acquire_all conns).2.free_idx_ = s.free_idx_.drop conns.length ∧
    (s.acquire_all conns).2.connections_.length = s.connections_.length := by
  induction conns generalizing s with
  | nil => simp [acquire_all]
  | cons c more ih =>
    cases hf : s.free_idx_ with
    | nil => rw [hf] at hlen; simp at hlen
    | cons idx rest =>
      have h1 : (s.acquire c).1 = idx := by simp [acquire, hf]
      have h2 : (s.acquire c).2.free_idx_ = rest := by simp [acquire, hf]
      have h3 : (s.acquire c).2.connections_.length = s.connections_.length := by
        simp [acquire, hf]
      have hlen2 : more.length ≤ (s.acquire c).2.free_idx_.length := by
        rw [h2]; rw [hf] at hlen; simpa using hlen
      obtain ⟨i1, i2, i3⟩ := ih (s.acquire c).2 hlen2
      rw [acquire_all_cons]
      refine ⟨?_, ?_, ?_⟩
      · simp [h1, i1, h2]
      · simp [i2, h2]
      · simp [i3, h3]

theorem close_all_free (rel : List Nat) (s : Server E Callback Middleware) :
    (s.close_all rel).free_idx_ = rel.reverse ++ s.free_idx_ ∧
    (s.close_all rel).connections_.length = s.connections_.length := by
  induction rel generalizing s with
  | nil => simp [close_all]
  | cons idx more ih =>
    obtain ⟨i1, i2⟩ := ih (s.close idx)
    simp only [close_all]
    refine ⟨?_, ?_⟩
    · rw [i1]; simp [close, release]
    · rw [i2]; simp [close, release]

theorem acquire_all_mem (conns : List Connection_ptr) (s : Server E Callback Middleware) :
    ∀ i ∈ (s.acquire_all conns).1, i ∈ s.free_idx_ ∨ s.connections_.length ≤ i := by
  induction conns generalizing s with
  | nil => intro i hi; simp [acquire_all] at hi
  | cons c more ih =>
    intro i hi
    rw [acquire_all_cons] at hi
    cases hf : s.free_idx_ with
    | nil =>
      have h1 : (s.acquire c).1 = s.connections_.length := by simp [acquire, hf]
      have h2 : (s.acquire c).2.free_idx_ = [] := by simp [acquire, hf]
      have h3 : (s.acquire c).2.connections_.length = s.connections_.length + 1 := by
        simp [acquire, hf]
      rcases List.mem_cons.1 hi with h | h
      · right; rw [h, h1]
      · rcases ih (s.acquire c).2 i h with h4 | h4
        · rw [h2] at h4; cases h4
        · right; omega
    | cons idx rest =>
      have h1 : (s.acquire c).1 = idx := by simp [acquire, hf]
      have h2 : (s.acquire c).2.free_idx_ = rest := by simp [acquire, hf]
      have h3 : (s.acquire c).2.connections_.length = s.connections_.length := by
        simp [acquire, hf]
      rcases List.mem_cons.1 hi with h | h
      · left; rw [h, h1]; simp
      · rcases ih (s.acquire c).2 i h with h4 | h4
        · left; rw [h2] at h4; simp [h4]
        · right; omega

theorem acquire_all_nodup (conns : List Connection_ptr) (s : Server E Callback Middleware)
    (hok : s.Pool_ok) : (s.acquire_all conns).1.Nodup := by
  induction conns generalizing s with
  | nil => simp [acquire_all]
  | cons c more ih =>
    rw [acquire_all_cons]
    obtain ⟨hnd, hlt⟩ := hok
    cases hf : s.free_idx_ with
    | nil =>
      have h1 : (s.acquire c).1 = s.connections_.length := by simp [acquire, hf]
      have h2 : (s.acquire c).2.free_idx_ = [] := by simp [acquire, hf]
      have h3 : (s.acquire c).2.connections_.length = s.connections_.length + 1 := by
        simp [acquire, hf]
      have hok2 : (s.acquire c).2.Pool_ok := by
        unfold Pool_ok; rw [h2]; simp
      refine List.nodup_cons.2 ⟨?_, ih _ hok2⟩
      intro hmem
      rcases acquire_all_mem more _ _ hmem with h4 | h4
      · rw [h2] at h4; cases h4
      · omega
    | cons idx rest =>
      have h1 : (s.acquire c).1 = idx := by simp [acquire, hf]
      have h2 : (s.acquire c).2.free_idx_ = rest := by simp [acquire, hf]
      have h3 : (s.acquire c).2.connections_.length = s.connections_.length := by
        simp [acquire, hf]
      rw [hf] at hnd hlt
      have hok2 : (s.acquire c).2.Pool_ok := by
        unfold Pool_ok; rw [h2, h3]
        exact ⟨(List.nodup_cons.1 hnd).2, fun i hi => hlt i (by simp [hi])⟩
      refine List.nodup_cons.2 ⟨?_, ih _ hok2⟩
      intro hmem
      rcases acquire_all_mem more _ _ hmem with h4 | h4
      · rw [h1, h2] at h4; exact (List.nodup_cons.1 hnd).1 h4
      · have := hlt idx (by simp); omega

/-- C14. From any pool state, let `first` connections be acquired, let the acquired
slots be closed, each once and in any order, and let as many connections be acquired
again. The indices of the second round are a rearrangement of the indices of the first
round, so the two rounds return the same set of indices, none leaked and none added; the
slot array has after the second round the length it had after the first round; the
free-index stack is the one the first round left; and in a pool where no index is twice
on the free-index stack and every free index is an index of the slot array, no index
occurs twice in either round. -/
theorem pool_round_trip {E : Regex_lib} {Callback Middleware : Type}
    (s : Server E Callback Middleware) (first second : List Connection_ptr)
    (released : List Nat)
    (hN : second.length = first.length)
    (hrel : List.Perm released (s.acquire_all first).1) :
    List.Perm (((s.acquire_all first).2.close_all released).acquire_all second).1
      (s.acquire_all first).1 ∧
    (∀ i, i ∈ (((s.acquire_all first).2.close_all released).acquire_all second).1 ↔
      i ∈ (s.acquire_all first).1) ∧
    (((s.acquire_all first).2.close_all released).acquire_all second).2.connections_.length
      = (s.acquire_all first).2.connections_.length ∧
    (((s.acquire_all first).2.close_all released).acquire_all second).2.free_idx_
      = (s.acquire_all first).2.free_idx_ ∧
    (s.Pool_ok →
      (s.acquire_all first).1.Nodup ∧
      (((s.acquire_all first).2.close_all released).acquire_all second).1.Nodup) := by
  have hlen1 := acquire_all_length first s
  have hrl : released.length = second.length := by rw [hrel.length_eq, hlen1, hN]
  obtain ⟨c1, c2⟩ := close_all_free released (s.acquire_all first).2
  have hfree : second.length ≤ ((s.acquire_all first).2.close_all released).free_idx_.length := by
    rw [c1]; simp; omega
  obtain ⟨a1, a2, a3⟩ := acquire_all_of_free second _ hfree
  have hidx : (((s.acquire_all first).2.close_all released).acquire_all second).1 =
      released.reverse := by
    rw [a1, c1, ← hrl, ← List.length_reverse released, List.take_left]
  have hperm : List.Perm (((s.acquire_all first).2.close_all released).acquire_all second).1
      (s.acquire_all first).1 := by
    rw [hidx]
    exact (List.reverse_perm released).trans hrel
  refine ⟨hperm, fun i => hperm.mem_iff, ?_, ?_, ?_⟩
  · rw [a3, c2]
  · rw [a2, c1, ← hrl, ← List.length_reverse released, List.drop_left]
  · intro hok
    have hnd := acquire_all_nodup first s hok
    exact ⟨hnd, hperm.nodup_iff.2 hnd⟩

/-- C14, at a concrete input: a pool of three slots with the middle one free; two
connections are acquired (slots 1 and 3), closed in the other order, and two more are
acquired. -/
theorem pool_round_trip_witness :
    [some 20, some 21].length = [some 12, some 13].length ∧
    List.Perm [3, 1] (Server.sample.acquire_all [some 12, some 13]).1 ∧
    List.Perm
      (((Server.sample.acquire_all [some 12, some 13]).2.close_all [3, 1]).acquire_all
        [some 20, some 21]).1
      (Server.sample.acquire_all [some 12, some 13]).1 ∧
    (((Server.sample.acquire_all [some 12, some 13]).2.close_all [3, 1]).acquire_all
        [some 20, some 21]).2.connections_ = [some 10, some 20, some 11, some 21] :=
  ⟨rfl, List.Perm.swap 1 3 [],
    (pool_round_trip Server.sample [some 12, some 13] [some 20, some 21] [3, 1] rfl
      (List.Perm.swap 1 3 [])).1,
    rfl⟩

end Server

end server

namespace server

namespace Ecma

theorem atom_of_ordinary {c : Char} (hc : c ∉ pattern_chars) :
    atom_of c = some (Atom.chr c) := by
  have hdot : c ≠ '.' := by
    intro h
    subst h
    exact hc (by decide)
  simp [atom_of, hdot, hc]

theorem parse_ordinary (s : List Char) (hs : ∀ c ∈ s, c ∉ pattern_chars) :
    parse s = some (s.map (fun c => ⟨Atom.chr c, false⟩)) := by
  induction s with
  | nil => rfl
  | cons c tl ih =>
    have hc := atom_of_ordinary (hs c (by simp))
    cases tl with
    | nil => simp [parse, hc]
    | cons d ds =>
      have hd : d ≠ '*' := by
        intro h
        subst h
        exact hs '*' (by simp) (by decide)
      have ih2 := ih (fun x hx => hs x (by simp [hx]))
      simp only [parse, hc, hd, if_false, ih2]
      simp

theorem accepts_ordinary (s : List Char) :
    accepts (s.map (fun c => ⟨Atom.chr c, false⟩)) s = true := by
  induction s with
  | nil => rfl
  | cons c tl ih => simp [accepts, Atom.accepts, ih]

theorem slash_ordinary : '/' ∉ pattern_chars := by decide

end Ecma

end server

namespace dashboard

open server

namespace Dashboard

variable {E : Regex_lib}

theorem add_match_own (d : Dashboard E) (c : Component) (e : E.Route_expr)
    (hc : E.compile ("/" ++ c.key) = some e)
    (hself : E.regex_match ("/" ++ c.key) e = true)
    (hno : ∀ route ∈ d.router_.routes http.Method.GET,
      E.regex_match ("/" ++ c.key) route.expr = false) :
    ((add c d).2.router_.match_ http.Method.GET ("/" ++ c.key)).1 = .ok (handler c) := by
  have ha := add_appends c d e hc
  rw [Router.match_ok_iff, Router.routes_of_table ha.2.1,
    Router.scan_append_of_none _ _ _ hno]
  simp [Router.scan, hself]

end Dashboard

/-- C12. Let a component whose key has no pattern character be added to a dashboard in
which no GET pattern matches `/` followed by the key. The registration succeeds, and
`match(GET, "/" + key)` returns the handler that `Dashboard::add` registered for the
component. Invoked once on a request and a response, that handler is `c.serialize` on the
shared writer followed by `send_buffer` on the response: to the calls made so far it adds
one call of the serializer of the component and then one `send_buffer` on the given
response, and what is sent is the writer as the serializer left it. -/
theorem handler_serializes_then_sends (d : Dashboard ecma) (c : Component)
    (hlit : ∀ ch ∈ c.key.data, ch ∉ Ecma.pattern_chars)
    (hno : ∀ route ∈ d.router_.routes http.Method.GET,
      ecma.regex_match ("/" ++ c.key) route.expr = false) :
    (Dashboard.add c d).1 = .ok () ∧
    ((Dashboard.add c d).2.router_.match_ http.Method.GET ("/" ++ c.key)).1 =
      .ok (Dashboard.handler c) ∧
    ∀ (req : Request_ptr) (res : Response_ptr) (o : Output),
      Dashboard.handler c req res o = send_buffer res (call_serialize c o) ∧
      (call_serialize c o).writer_ = c.serialize o.writer_ ∧
      (call_serialize c o).actions = o.actions ++ [Action.serialize c.key] ∧
      (Dashboard.handler c req res o).actions =
        o.actions ++ [Action.serialize c.key,
          Action.send_buffer res (c.serialize o.writer_)] := by
  have hall : ∀ ch ∈ ("/" ++ c.key).data, ch ∉ Ecma.pattern_chars := by
    intro ch hch
    have : ch = '/' ∨ ch ∈ c.key.data := by
      simpa [String.data_append] using hch
    rcases this with h | h
    · rw [h]; exact Ecma.slash_ordinary
    · exact hlit ch h
  have hc : ecma.compile ("/" ++ c.key) =
      some (("/" ++ c.key).data.map (fun ch => ⟨Ecma.Atom.chr ch, false⟩)) :=
    Ecma.parse_ordinary _ hall
  have hself : ecma.regex_match ("/" ++ c.key)
      (("/" ++ c.key).data.map (fun ch => ⟨Ecma.Atom.chr ch, false⟩)) = true :=
    Ecma.accepts_ordinary _
  refine ⟨(Dashboard.add_appends c d _ hc).1, Dashboard.add_match_own d c _ hc hself hno, ?_⟩
  intro req res o
  refine ⟨rfl, rfl, rfl, ?_⟩
  simp [Dashboard.handler, send_buffer, call_serialize]

/-- C12, at a concrete input: a component with the key `logger` added to a dashboard
with an empty router, and its handler invoked on an empty writer. -/
theorem handler_serializes_then_sends_witness :
    (∀ ch ∈ sample_first.key.data, ch ∉ Ecma.pattern_chars) ∧
    (∀ route ∈ Dashboard.blank.router_.routes http.Method.GET,
      ecma.regex_match ("/" ++ sample_first.key) route.expr = false) ∧
    ((Dashboard.add sample_first Dashboard.blank).2.router_.match_
      http.Method.GET "/logger").1 = .ok (Dashboard.handler sample_first) ∧
    (Dashboard.handler sample_first ⟨1⟩ ⟨2⟩ ⟨[], []⟩).actions =
      [Action.serialize "logger",
        Action.send_buffer ⟨2⟩ [Writer_call.StartArray, Writer_call.EndArray]] :=
  ⟨by decide, fun route h => absurd h (List.not_mem_nil route),
    (handler_serializes_then_sends Dashboard.blank sample_first (by decide)
      (fun route h => absurd h (List.not_mem_nil route))).2.1,
    rfl⟩

end dashboard

namespace server

namespace Router

variable {E : Regex_lib} {Callback : Type}

theorem emplace_back_shadowed_match (r : Router E Callback) (method : http.Method)
    (route : String) (result : Callback) (e : E.Route_expr) (earlier : Route E Callback)
    (hc : E.compile route = some e) (hmem : earlier ∈ r.routes method)
    (heq : ∀ path, E.regex_match path earlier.expr = E.regex_match path e)
    (m : http.Method) (path : String) :
    ((r.emplace_back method route result).2.match_ m path).1 = (r.match_ m path).1 := by
  have happ := emplace_back_appends r method route result e hc
  have hroutes : (r.emplace_back method route result).2.routes method =
      r.routes method ++ [⟨e, result⟩] := routes_of_table happ.2.1
  by_cases hm : m = method
  · subst hm
    rw [match_fst, match_fst, hroutes]
    have h2 : (r.routes m).isEmpty = false := by
      cases hrs : r.routes m with
      | nil => rw [hrs] at hmem; cases hmem
      | cons a l => rfl
    have h1 : (r.routes m ++ [(⟨e, result⟩ : Route E Callback)]).isEmpty = false := by
      cases hrs : r.routes m with
      | nil => rfl
      | cons a l => rfl
    simp only [h1, h2, Bool.false_eq_true, if_false]
    cases hs : scan path (r.routes m) with
    | some c => rw [scan_append_of_some path _ _ c hs]
    | none =>
      have hall := (scan_eq_none path (r.routes m)).1 hs
      have he : E.regex_match path e = false := by rw [← heq]; exact hall earlier hmem
      rw [scan_append_of_none path _ _ hall]
      simp [scan, he]
  · apply match_fst_congr
    unfold routes
    rw [emplace_back_other r method route result hm]

end Router

end server

namespace dashboard

open server

namespace Dashboard

variable {E : Regex_lib}

theorem emplace_of_present (m : Component_collection) (key : String) (c old : Component)
    (h : m key = some old) : m.emplace key c = m := by
  funext k
  unfold Component_collection.emplace
  by_cases hk : k = key
  · subst hk; simp [h]
  · simp [hk]

theorem emplace_self (m : Component_collection) (key : String) (c : Component) :
    (m.emplace key c) key = some ((m key).getD c) := by
  unfold Component_collection.emplace
  cases h : m key <;> simp

theorem add_components (c : Component) (d : Dashboard E) :
    (add c d).2.components_ = d.components_.emplace c.key c := rfl

end Dashboard

/-- C15, refuted as stated: a dashboard already holds a component under the key `logger`;
two more components with that key are added one after the other; the collection then
maps the key to the component that held it before, and not to the first of the two. -/
theorem duplicate_key_keeps_earlier_holder :
    sample_second.key = sample_first.key ∧
    (Dashboard.add sample_second
      (Dashboard.add sample_first
        (Dashboard.add sample_holder Dashboard.blank).2).2).2.components_
        sample_first.key = some sample_holder ∧
    (Dashboard.add sample_second
      (Dashboard.add sample_first
        (Dashboard.add sample_holder Dashboard.blank).2).2).2.components_
        sample_first.key ≠ some sample_first := by
  refine ⟨rfl, rfl, ?_⟩
  intro h
  have h2 := congrArg (fun o : Option Component => o.map (fun c => c.serialize [])) h
  exact absurd h2 (by decide)

/-- C15, amended. Let two components with the same key, for which `/` followed by the
key compiles, be added one after the other. Both registrations succeed. The collection
after the second `add` is the collection after the first (the second `emplace` inserts
nothing): it maps the key to the first of the two when the key was absent before, and to
the component that held the key before otherwise. The GET sequence has grown by two
routes with the same pattern. For every method and path `Router::match` has the outcome
it had after the first `add`, and every callback it returns is the callback of the first
matching route among the routes that were there after the first `add`: the route of the
second component is never the one returned. -/
theorem add_duplicate_key {E : Regex_lib} (d : Dashboard E) (c1 c2 : Component)
    (e : E.Route_expr) (hkey : c2.key = c1.key)
    (hc : E.compile ("/" ++ c1.key) = some e) :
    (Dashboard.add c1 d).1 = .ok () ∧
    (Dashboard.add c2 (Dashboard.add c1 d).2).1 = .ok () ∧
    (Dashboard.add c2 (Dashboard.add c1 d).2).2.components_ =
      (Dashboard.add c1 d).2.components_ ∧
    (d.components_ c1.key = none →
      (Dashboard.add c2 (Dashboard.add c1 d).2).2.components_ c1.key = some c1) ∧
    (∀ holder, d.components_ c1.key = some holder →
      (Dashboard.add c2 (Dashboard.add c1 d).2).2.components_ c1.key = some holder) ∧
    (Dashboard.add c2 (Dashboard.add c1 d).2).2.router_.routes http.Method.GET =
      d.router_.routes http.Method.GET ++
        [⟨e, Dashboard.handler c1⟩, ⟨e, Dashboard.handler c2⟩] ∧
    (∀ (m : http.Method) (path : String),
      ((Dashboard.add c2 (Dashboard.add c1 d).2).2.router_.match_ m path).1 =
        ((Dashboard.add c1 d).2.router_.match_ m path).1) ∧
    (∀ (m : http.Method) (path : String) (h : Callback),
      ((Dashboard.add c2 (Dashboard.add c1 d).2).2.router_.match_ m path).1 = .ok h →
      ∃ (i : Nat) (route : Route E Callback),
        ((Dashboard.add c1 d).2.router_.routes m)[i]? = some route ∧
        route.callback = h ∧ E.regex_match path route.expr = true ∧
        ∀ (j : Nat) (before : Route E Callback), j < i →
          ((Dashboard.add c1 d).2.router_.routes m)[j]? = some before →
          E.regex_match path before.expr = false) := by
  have hc2 : E.compile ("/" ++ c2.key) = some e := by rw [hkey]; exact hc
  have a1 := Dashboard.add_appends c1 d e hc
  have a2 := Dashboard.add_appends c2 (Dashboard.add c1 d).2 e hc2
  have r1 := Router.routes_of_table a1.2.1
  have r2 := Router.routes_of_table a2.2.1
  have hself := Dashboard.emplace_self d.components_ c1.key c1
  have hcomp : (Dashboard.add c2 (Dashboard.add c1 d).2).2.components_ =
      (Dashboard.add c1 d).2.components_ := by
    rw [Dashboard.add_components c2, Dashboard.add_components c1, hkey]
    exact Dashboard.emplace_of_present _ _ _ _ hself
  have hsame : ∀ (m : http.Method) (path : String),
      ((Dashboard.add c2 (Dashboard.add c1 d).2).2.router_.match_ m path).1 =
        ((Dashboard.add c1 d).2.router_.match_ m path).1 := by
    intro m path
    exact Router.emplace_back_shadowed_match (Dashboard.add c1 d).2.router_ http.Method.GET
      ("/" ++ c2.key) (Dashboard.handler c2) e ⟨e, Dashboard.handler c1⟩ hc2
      (by rw [r1]; simp) (fun _ => rfl) m path
  refine ⟨a1.1, a2.1, hcomp, ?_, ?_, ?_, hsame, ?_⟩
  · intro hnone
    rw [hcomp, Dashboard.add_components c1, hself, hnone]
    rfl
  · intro holder hh
    rw [hcomp, Dashboard.add_components c1, hself, hh]
    rfl
  · rw [r2, r1]; simp
  · intro m path h hok
    rw [hsame, Router.match_ok_iff, Router.scan_eq_some] at hok
    exact hok

/-- C15 amended, at a concrete input: two components with the key `logger` added to a
dashboard with an empty router and no component. -/
theorem add_duplicate_key_witness :
    sample_second.key = sample_first.key ∧
    ecma.compile ("/" ++ sample_first.key) =
      some ("/logger".data.map (fun ch => ⟨Ecma.Atom.chr ch, false⟩)) ∧
    ((Dashboard.add sample_second
      (Dashboard.add sample_first Dashboard.blank).2).2.router_.routes
        http.Method.GET).length = 2 ∧
    ((Dashboard.add sample_second
      (Dashboard.add sample_first Dashboard.blank).2).2.router_.match_
        http.Method.GET "/logger").1 =
      ((Dashboard.add sample_first Dashboard.blank).2.router_.match_
        http.Method.GET "/logger").1 :=
  ⟨rfl, rfl, rfl,
    (add_duplicate_key Dashboard.blank sample_first sample_second
      ("/logger".data.map (fun ch => ⟨Ecma.Atom.chr ch, false⟩)) rfl rfl).2.2.2.2.2.2.1
      http.Method.GET "/logger"⟩

end dashboard
